import Mathlib

/-!
Verification of the winlamb message-dispatch layer, string helpers,
`insert_order_map`, `accel_table` and the dialog procedure, embedded
shallowly from the C++ sources.

Machine-integer conventions: `UINT`, `WORD`, `UINT_PTR`, `size_t` values are
modelled as `Nat` with explicit `% 2^w` where wrap-around matters; `int` and
`LRESULT` as `Int`.  C++ exceptions are modelled with `Except`/`Option`
error results.
-/

set_option maxHeartbeats 1000000

/-! ### Win32 constants (from Windows.h) -/

def WM_CREATE : Nat := 0x0001
def WM_GETFONT : Nat := 0x0031
def WM_GETHOTKEY : Nat := 0x0033
def WM_QUERYDRAGICON : Nat := 0x0037
def WM_COPYDATA : Nat := 0x004A
def WM_NOTIFY : Nat := 0x004E
def WM_INPUTLANGCHANGE : Nat := 0x0051
def WM_HELP : Nat := 0x0053
def WM_NCDESTROY : Nat := 0x0082
def WM_INITDIALOG : Nat := 0x0110
def WM_COMMAND : Nat := 0x0111
def WM_QUERYNEWPALETTE : Nat := 0x030F
def WM_APP : Nat := 0x8000

/-- From ui_work.h: `const UINT WM_UI_WORK_THREAD = WM_APP + 0x3fff;`. -/
def WM_UI_WORK_THREAD : Nat := WM_APP + 0x3fff

/-- Win32 `LOWORD` of a `WPARAM`: the low 16 bits. -/
def LOWORD (wp : Nat) : Nat := wp % 2 ^ 16

/-- `static_cast<int>` of a `UINT` value: reinterpret the low 32 bits as a
signed two's-complement integer. -/
def toInt32 (c : Nat) : Int :=
  if c % 2 ^ 32 < 2 ^ 31 then ((c % 2 ^ 32 : Nat) : Int)
  else ((c % 2 ^ 32 : Nat) : Int) - 2 ^ 32

/-- `size_t(-1)`, the value `-1` takes after conversion to `size_t`;
used by the sources both as `std::wstring::npos` and as the failure
sentinel of `insert_order_map::_find_idx`. -/
def SIZE_MAX : Nat := 2 ^ 64 - 1

/-! ### Message parameters and handlers -/

/-- The `wl::msg::wm` parameter pack handed to user lambdas:
`{wparam, lparam}` (param_wm.h). -/
structure Wm where
  wparam : Nat
  lparam : Int

/-- A registered user callback `std::function<LRESULT(wl::msg::wm)>`.
A C++ call either returns an `LRESULT` (`Except.ok`) or throws
(`Except.error`). -/
def Handler : Type := Wm → Except Unit Int

/-- The `NMHDR` structure that the `lparam` of a `WM_NOTIFY` message
points to.  `idFrom` is a `UINT_PTR`, `code` a `UINT`. -/
structure NMHDR where
  hwndFrom : Nat
  idFrom : Nat
  code : Nat

/-! ### The handler store

`store.h` is not among the sources; only its callers are.  The model below
is therefore taken from the specification text. -/

/-- Modelled from the spec: `store<K>` (store.h is absent from the sources)
is "a linear/keyed table of registered callbacks keyed by window message ID,
command ID, or (control-ID, notification-code) pair".  It is modelled as a
list of (key, value) entries; `add` appends an entry. -/
def storeAdd {K A : Type} (st : List (K × A)) (k : K) (v : A) : List (K × A) :=
  st ++ [(k, v)]

/-- Modelled from the spec: `store<K>::find` walks the linear table and
returns the value of the first entry whose key equals the given key,
or null when no entry has that key. -/
def storeFind {K A : Type} [DecidableEq K] : List (K × A) → K → Option A
  | [], _ => none
  | (k2, v) :: rest, k => if k2 = k then some v else storeFind rest k

/-! ### base_msg_handler (base_msg_handler.h) -/

/-- The three stores owned by `base_msg_handler`: user lambdas for plain
messages (`_msgs`, keyed by `UINT`), for `WM_COMMAND` (`_cmds`, keyed by
`WORD` command ID) and for `WM_NOTIFY` (`_nfys`, keyed by the pair
(`UINT_PTR` control id, `int` notification code)). -/
structure BaseMsgHandler where
  msgs : List (Nat × Handler)
  cmds : List (Nat × Handler)
  nfys : List ((Nat × Int) × Handler)

/-- `base_msg_handler::exec` (base_msg_handler.h lines 39-62): select the
store and key from the message, look up a user handler; when one is found,
run it under `catch_all_excps` into `LRESULT retVal = 0` and return
`retVal`; otherwise return an empty optional.  `catch_all_excps`
(catch_all_excps.h, absent from the sources) is modelled from the spec as
catching every exception thrown by the wrapped call, so a throwing handler
leaves `retVal` at its initial value 0. -/
def BaseMsgHandler.exec (H : BaseMsgHandler) (msg wp : Nat) (lp : Int)
    (nmhdr : NMHDR) : Option Int :=
  match (if msg = WM_COMMAND then storeFind H.cmds (LOWORD wp)
         else if msg = WM_NOTIFY then storeFind H.nfys (nmhdr.idFrom, toInt32 nmhdr.code)
         else storeFind H.msgs msg) with
  | some f =>
      some (match f ⟨wp, lp⟩ with
            | Except.ok v => v
            | Except.error _ => (0 : Int))
  | none => none

/-- The lookup key selection exactly as the specification words it: by
command ID `LOWORD(wparam)` for `WM_COMMAND`, by the (idFrom, notification
code) pair read from the `NMHDR` for `WM_NOTIFY`, and by the message ID
itself otherwise.  Stated separately from `BaseMsgHandler.exec` so that the
code's dispatch can be compared against it. -/
def dispatchLookup (H : BaseMsgHandler) (msg wp : Nat) (nmhdr : NMHDR) :
    Option Handler :=
  if msg = WM_COMMAND then storeFind H.cmds (LOWORD wp)
  else if msg = WM_NOTIFY then storeFind H.nfys (nmhdr.idFrom, toInt32 nmhdr.code)
  else storeFind H.msgs msg

/-! ### msg_proxy named registration methods (msg_proxy.h)

Each `WINLAMB_MSG_RET_*(name, dwmsg, ...)` macro expansion wraps the typed
user callback into a `std::function<LRESULT(wl::msg::wm)>` and calls
`this->wm(dwmsg, wrapped)`.  The wrapping does not affect the key, so it is
left abstract: `func` below stands for the already-wrapped handler. -/

/-- `msg_proxy::wm` (msg_proxy.h lines 30-39): `this->_msgs.add(message, func)`. -/
def msg_proxy_wm (msgs : List (Nat × Handler)) (message : Nat)
    (func : Handler) : List (Nat × Handler) :=
  storeAdd msgs message func

/-- `msg_proxy::wm_copy_data` (msg_proxy.h line 176):
`WINLAMB_MSG_RET_TYPE(wm_copy_data, WM_CREATE, bool)`. -/
def wm_copy_data (msgs : List (Nat × Handler)) (func : Handler) :
    List (Nat × Handler) :=
  msg_proxy_wm msgs WM_CREATE func

/-- `msg_proxy::wm_get_hot_key` (msg_proxy.h line 294):
`WINLAMB_MSG_RET_TYPE(wm_get_hot_key, WM_GETFONT, WORD)`. -/
def wm_get_hot_key (msgs : List (Nat × Handler)) (func : Handler) :
    List (Nat × Handler) :=
  msg_proxy_wm msgs WM_GETFONT func

/-- `msg_proxy::wm_input_lang_change` (msg_proxy.h line 346):
`WINLAMB_MSG_RET_VAL(wm_input_lang_change, WM_HELP, 1)`. -/
def wm_input_lang_change (msgs : List (Nat × Handler)) (func : Handler) :
    List (Nat × Handler) :=
  msg_proxy_wm msgs WM_HELP func

/-- `msg_proxy::wm_query_drag_icon` (msg_proxy.h line 586):
`WINLAMB_MSG_RET_TYPE(wm_query_drag_icon, WM_QUERYNEWPALETTE, HICON)`. -/
def wm_query_drag_icon (msgs : List (Nat × Handler)) (func : Handler) :
    List (Nat × Handler) :=
  msg_proxy_wm msgs WM_QUERYNEWPALETTE func

/-! ### ui_work and the UI-thread work message (ui_work.h, base_msg_handler.h) -/

/-- The heap of `new`-allocated `std::function<void()>` objects: a map from
addresses to the identity of the stored function, `none` meaning
unallocated or freed.  User functions are identified by an opaque `Nat`. -/
def Heap : Type := Nat → Option Nat

/-- Pointwise update of a heap cell. -/
def heapUpdate (h : Heap) (p : Nat) (v : Option Nat) : Heap :=
  fun q => if q = p then v else h q

/-- The empty heap. -/
def heapEmpty : Heap := fun _ => none

/-- The (msg, wparam, lparam) triple carried by a `SendMessage` call;
`lparam` here is the pointer value, modelled as `Nat`. -/
structure SentMessage where
  msg : Nat
  wparam : Nat
  lparam : Nat

/-- `ui_work::work` (ui_work.h lines 33-43): allocate the function on the
heap (`pFunc` is the fresh address returned by `new`) and send
`WM_UI_WORK_THREAD` with wparam `0xc0def00d` and the pointer as lparam. -/
def ui_work_work (heap : Heap) (pFunc : Nat) (func : Nat) :
    Heap × SentMessage :=
  (heapUpdate heap pFunc (some func), ⟨WM_UI_WORK_THREAD, 0xc0def00d, pFunc⟩)

/-- Outcome of running the default `WM_UI_WORK_THREAD` handler: which stored
function was invoked (if any), the heap afterwards, and the returned
`LRESULT`. -/
structure UiWorkStep where
  invoked : Option Nat
  heapAfter : Heap
  result : Int

/-- The default handler that `base_msg_handler::_default_msg_handlers`
registers for `WM_UI_WORK_THREAD` (base_msg_handler.h lines 98-112): when
wparam is `0xc0def00d` and lparam is non-null, retrieve the function the
lparam points to, invoke it (exceptions swallowed by `catch_all_excps`),
delete the pointer, and return 0; otherwise do nothing and return 0. -/
def wm_ui_work_handler (heap : Heap) (wparam : Nat) (lparam : Nat) :
    UiWorkStep :=
  if wparam = 0xc0def00d ∧ lparam ≠ 0 then
    { invoked := heap lparam, heapAfter := heapUpdate heap lparam none, result := 0 }
  else
    { invoked := none, heapAfter := heap, result := 0 }

/-- The registration performed by `base_msg_handler::_default_msg_handlers`:
the `WM_UI_WORK_THREAD` key mapped to the default handler. -/
def default_msg_handlers : List (Nat × (Heap → Nat → Nat → UiWorkStep)) :=
  [(WM_UI_WORK_THREAD, wm_ui_work_handler)]

/-! ### base_dialog (base_dialog.h) -/

/-- `base_dialog::_dialog_proc` (base_dialog.h lines 89-116).  `stored` is
the `base_dialog*` kept in the window's `DWLP_USER` slot, `lpSelf` the
pointer passed through `lparam` of `WM_INITDIALOG` (each `none` when null).
Returns the `INT_PTR` result and the new content of the `DWLP_USER` slot:
on `WM_INITDIALOG` the `lparam` pointer is stored, with no stored pointer
the procedure returns FALSE (0) untouched, otherwise the user handler runs
through `base_msg_handler::exec` and `WM_NCDESTROY` clears the slot; the
result is `ret.value_or(FALSE)`. -/
def dialog_proc (stored lpSelf : Option BaseMsgHandler) (msg wp : Nat)
    (lp : Int) (nm : NMHDR) : Int × Option BaseMsgHandler :=
  match (if msg = WM_INITDIALOG then lpSelf else stored) with
  | none => (0, if msg = WM_INITDIALOG then lpSelf else stored)
  | some H =>
      ((H.exec msg wp lp nm).getD 0,
       if msg = WM_NCDESTROY then none
       else if msg = WM_INITDIALOG then lpSelf else stored)

/-- `base_dialog`: owns the `HWND` (null before creation) and the message
handler with its stores. -/
structure BaseDialog where
  hWnd : Option Nat
  msgHandler : BaseMsgHandler

/-- `base_dialog::on_msg` (base_dialog.h lines 39-45): throw
`std::logic_error` when the dialog was already created, otherwise hand out
the registration proxy (which wraps the message-handler stores). -/
def BaseDialog.on_msg (d : BaseDialog) : Except String BaseMsgHandler :=
  match d.hWnd with
  | some _ => Except.error ("Cannot add a message handler after the dialog was created.")
  | none => Except.ok d.msgHandler

/-! ### accel_table (accel_table.h) -/

/-- Win32 `ACCEL` entry: virtual-flag byte, key `WORD`, command `WORD`. -/
structure ACCEL where
  fVirt : Nat
  key : Nat
  cmd : Nat

/-- `accel_table` state: the pending `ACCEL` entries and whether `_hAccel`
is non-null (the table was built). -/
structure AccelTable where
  accels : List ACCEL
  hAccel : Bool

def FVIRTKEY : Nat := 0x01
def FSHIFT : Nat := 0x04
def FCONTROL : Nat := 0x08
def FALT : Nat := 0x10

/-- Models Win32 `CharUpperBuffW` on a single character. -/
def charUpperW (c : Char) : Char := c.toUpper

/-- `static_cast<BYTE>`. -/
def BYTE_cast (n : Nat) : Nat := n % 2 ^ 8

/-- `static_cast<WORD>` of an `int`. -/
def WORD_cast (n : Int) : Nat := (n % 2 ^ 16).toNat

/-- `accel_table::add_char` (accel_table.h lines 63-73): throw
`std::logic_error` when the table was already built, otherwise uppercase the
character and append one `ACCEL` entry. -/
def AccelTable.add_char (t : AccelTable) (ch : Char) (modifiers : Nat)
    (cmdId : Int) : AccelTable × Option String :=
  if t.hAccel then
    (t, some ("Cannot add character after accelerator table was built."))
  else
    ({ t with accels := t.accels ++
        [⟨BYTE_cast modifiers, (charUpperW ch).toNat % 2 ^ 16, WORD_cast cmdId⟩] },
     none)

/-- `accel_table::add_key` (accel_table.h lines 76-85): throw
`std::logic_error` when the table was already built, otherwise append one
`ACCEL` entry for the virtual key. -/
def AccelTable.add_key (t : AccelTable) (vKey : Nat) (modifiers : Nat)
    (cmdId : Int) : AccelTable × Option String :=
  if t.hAccel then
    (t, some ("Cannot add virtual key after accelerator table was built."))
  else
    ({ t with accels := t.accels ++
        [⟨BYTE_cast modifiers, vKey % 2 ^ 16, WORD_cast cmdId⟩] },
     none)

/-- `accel_table::haccel` (accel_table.h lines 56-60 and `_build`, lines
99-112): build the table once when it is not yet built and entries exist
(`createOk` tells whether `CreateAcceleratorTableW` succeeds; on success the
pending entries are cleared), then return the handle (`true` = non-null). -/
def AccelTable.haccel (t : AccelTable) (createOk : Bool) :
    (AccelTable × Bool) × Option String :=
  if t.hAccel = false ∧ t.accels.length ≠ 0 then
    if createOk then ((⟨[], true⟩, true), none)
    else ((t, t.hAccel), some ("CreateAcceleratorTable failed."))
  else ((t, t.hAccel), none)

/-! ### insert_order_map (insert_order_map.h) -/

/-- A single entry of `insert_order_map`: `struct entry { K key; V val; }`. -/
structure MapEntry (K V : Type) where
  key : K
  val : V

/-- Vector-based associative container keeping insertion order
(insert_order_map.h): the underlying `std::vector<entry>`. -/
structure InsertOrderMap (K V : Type) where
  entries : List (MapEntry K V)

/-- The linear scan of `insert_order_map::_find_idx` (insert_order_map.h
lines 155-163): walk the entries from position `i`; return the index of the
first entry whose key equals the given key, or `(size_t)-1` when the scan
falls off the end. -/
def find_idx_go {K V : Type} [DecidableEq K] :
    List (MapEntry K V) → K → Nat → Nat
  | [], _, _ => SIZE_MAX
  | e :: rest, key, i => if e.key = key then i else find_idx_go rest key (i + 1)

/-- `insert_order_map::_find_idx`: scan from index 0. -/
def InsertOrderMap.find_idx {K V : Type} [DecidableEq K]
    (m : InsertOrderMap K V) (key : K) : Nat :=
  find_idx_go m.entries key 0

/-- `insert_order_map::contains`: `_find_idx(key) != -1`. -/
def InsertOrderMap.contains {K V : Type} [DecidableEq K]
    (m : InsertOrderMap K V) (key : K) : Bool :=
  m.find_idx key != SIZE_MAX

/-- `insert_order_map::emplace(key, val)` (insert_order_map.h lines
115-123): when the key is absent append a new entry at the back and return
(iterator to it = index of the last entry, true); otherwise return
(iterator to the existing entry, false) leaving the entries untouched. -/
def InsertOrderMap.emplace {K V : Type} [DecidableEq K]
    (m : InsertOrderMap K V) (key : K) (val : V) :
    InsertOrderMap K V × Nat × Bool :=
  if m.find_idx key = SIZE_MAX then
    (⟨m.entries ++ [⟨key, val⟩]⟩, m.entries.length, true)
  else (m, m.find_idx key, false)

/-- The one-argument `insert_order_map::emplace(key)` (insert_order_map.h
lines 130-138): the new entry's value is default-constructed. -/
def InsertOrderMap.emplace_key {K V : Type} [DecidableEq K] [Inhabited V]
    (m : InsertOrderMap K V) (key : K) :
    InsertOrderMap K V × Nat × Bool :=
  if m.find_idx key = SIZE_MAX then
    (⟨m.entries ++ [⟨key, default⟩]⟩, m.entries.length, true)
  else (m, m.find_idx key, false)

/-- `insert_order_map::operator[]` (insert_order_map.h lines 101-108): on an
absent key insert via `emplace(key)` and refer to the new entry, otherwise
refer to the entry at the found index.  Returns the updated map and the
index of the referenced entry. -/
def InsertOrderMap.opIndex {K V : Type} [DecidableEq K] [Inhabited V]
    (m : InsertOrderMap K V) (key : K) : InsertOrderMap K V × Nat :=
  if m.find_idx key = SIZE_MAX then
    ((m.emplace_key key).1, (m.emplace_key key).2.1)
  else (m, m.find_idx key)

/-! ### wl::str::split and wl::str::guess_linebreak (str.h) -/

/-- `std::wstring_view::find(d, 0)` on `s`: the smallest index `i` at which
`d` occurs in `s` (`(s.drop i).take d.length = d`), or `none` for `npos`. -/
def idx_of_sub : List Char → List Char → Option Nat
  | [], d => if ([] : List Char).take d.length = d then some 0 else none
  | c :: rest, d =>
      if (c :: rest).take d.length = d then some 0
      else (idx_of_sub rest d).map (fun j => j + 1)

/-- The splitting loop of `wl::str::split` (str.h lines 421-434).  In the
C++ loop `base` and `head` are equal whenever `find` is called, so the loop
is a recursion on the remaining suffix `s.drop base`: each occurrence of
the delimiter (at offset `i` of the suffix) emits the piece before it and
continues after the delimiter; when `find` fails the loop exits and the
final piece `s.substr(base)` is emitted.  `fuel` bounds the iteration
count; every iteration consumes at least `d.length ≥ 1` characters in
every call reachable from `split`, so `fuel = s.length` is enough and the
fuel-exhausted branch is never reached with a non-empty remainder. -/
def split_go_fuel (d : List Char) : Nat → List Char → List (List Char)
  | 0, s => [s]
  | fuel + 1, s =>
      match idx_of_sub s d with
      | none => [s]
      | some i => s.take i :: split_go_fuel d fuel (s.drop (i + d.length))

/-- `wl::str::split` (str.h lines 410-435): empty input yields no pieces,
an empty delimiter yields the single piece `s`, otherwise run the loop. -/
def split (s d : List Char) : List (List Char) :=
  if s = [] then []
  else if d = [] then [s]
  else split_go_fuel d s.length s

/-- Counting companion of `split_go_fuel`: the number of non-overlapping
occurrences of `d` in `s`, scanning left to right and skipping each found
occurrence whole. -/
def count_occ_fuel (d : List Char) : Nat → List Char → Nat
  | 0, _ => 0
  | fuel + 1, s =>
      match idx_of_sub s d with
      | none => 0
      | some i => 1 + count_occ_fuel d fuel (s.drop (i + d.length))

/-- The number of leftmost non-overlapping occurrences of `d` in `s`. -/
def count_occurrences (s d : List Char) : Nat := count_occ_fuel d s.length s

/-- The four linebreak strings `guess_linebreak` can return. -/
inductive Linebreak where
  | n
  | r
  | rn
  | nr

/-- The loop of `str::guess_linebreak` (str.h lines 399-405).  `fuel` is
the remaining iteration count `bound - i`, where `bound` is the `size_t`
value of `s.length() - 1`.  The `none` outcome models an out-of-bounds
`s[i]` read (undefined behavior); `some r` models a normal return, with
`some (some lb)` a found linebreak and `some none` the `nullptr` return. -/
def guess_linebreak_loop (s : List Char) : Nat → Nat → Option (Option Linebreak)
  | 0, _ => some none
  | fuel + 1, i =>
      match s.get? i with
      | none => none
      | some c =>
          if c = '\r' then
            match s.get? (i + 1) with
            | none => none
            | some c2 => some (some (if c2 = '\n' then Linebreak.rn else Linebreak.r))
          else if c = '\n' then
            match s.get? (i + 1) with
            | none => none
            | some c2 => some (some (if c2 = '\r' then Linebreak.nr else Linebreak.n))
          else guess_linebreak_loop s fuel (i + 1)

/-- `wl::str::guess_linebreak` (str.h lines 397-407): scan `i` from 0 while
`i < s.length() - 1`, where the bound is computed in `size_t` arithmetic
and therefore wraps around to `SIZE_MAX` when the string is empty. -/
def guess_linebreak (s : List Char) : Option (Option Linebreak) :=
  guess_linebreak_loop s ((s.length + SIZE_MAX) % 2 ^ 64) 0

/-! ### Concrete material used by the witnesses -/

/-- A concrete handler that returns 7 without throwing. -/
def handlerSeven : Handler := fun _ => Except.ok 7

/-- A concrete handler that always throws. -/
def handlerThrow : Handler := fun _ => Except.error ()

/-- A concrete `NMHDR` value. -/
def nmZero : NMHDR := ⟨0, 0, 0⟩

/-- A handler state whose command store maps command ID 5 to `handlerSeven`. -/
def handlerStateCmd5 : BaseMsgHandler := ⟨[], [(5, handlerSeven)], []⟩

/-- A handler state whose message store maps message 2 to `handlerThrow`. -/
def handlerStateMsg2 : BaseMsgHandler := ⟨[(2, handlerThrow)], [], []⟩

/-- The empty handler state. -/
def handlerStateEmpty : BaseMsgHandler := ⟨[], [], []⟩

/-! ### Theorems -/

theorem exec_eq_none_of_lookup_none (H : BaseMsgHandler) (msg wp : Nat)
    (lp : Int) (nm : NMHDR) (h : dispatchLookup H msg wp nm = none) :
    H.exec msg wp lp nm = none := by
  unfold dispatchLookup at h
  unfold BaseMsgHandler.exec
  rw [h]

theorem exec_eq_ok_of_lookup_some (H : BaseMsgHandler) (msg wp : Nat)
    (lp : Int) (nm : NMHDR) (f : Handler) (v : Int)
    (hf : dispatchLookup H msg wp nm = some f)
    (hv : f ⟨wp, lp⟩ = Except.ok v) :
    H.exec msg wp lp nm = some v := by
  unfold dispatchLookup at hf
  unfold BaseMsgHandler.exec
  rw [hf]
  simp [hv]

theorem exec_eq_zero_of_lookup_throw (H : BaseMsgHandler) (msg wp : Nat)
    (lp : Int) (nm : NMHDR) (f : Handler) (e : Unit)
    (hf : dispatchLookup H msg wp nm = some f)
    (hv : f ⟨wp, lp⟩ = Except.error e) :
    H.exec msg wp lp nm = some 0 := by
  unfold dispatchLookup at hf
  unfold BaseMsgHandler.exec
  rw [hf]
  simp [hv]

/-- Claim C1: for every message `(msg, wparam, lparam)` passed to
`base_msg_handler::exec`, the handler lookup is keyed by command ID
`LOWORD(wparam)` when `msg` is `WM_COMMAND`, by the pair (idFrom,
notification code) from the `NMHDR` pointed to by `lparam` when `msg` is
`WM_NOTIFY`, and by the message ID itself otherwise; a found handler's
`LRESULT` is returned wrapped in an optional, and a missing handler yields
an empty optional. -/
theorem exec_dispatch_keying (H : BaseMsgHandler) (msg wp : Nat) (lp : Int)
    (nm : NMHDR) :
    (dispatchLookup H msg wp nm = none → H.exec msg wp lp nm = none) ∧
    (∀ f v, dispatchLookup H msg wp nm = some f → f ⟨wp, lp⟩ = Except.ok v →
      H.exec msg wp lp nm = some v) :=
  ⟨fun h => exec_eq_none_of_lookup_none H msg wp lp nm h,
   fun f v hf hv => exec_eq_ok_of_lookup_some H msg wp lp nm f v hf hv⟩

theorem exec_dispatch_keying_witness :
    BaseMsgHandler.exec handlerStateCmd5 WM_COMMAND 5 0 nmZero = some 7 ∧
    BaseMsgHandler.exec handlerStateEmpty 42 0 0 nmZero = none :=
  ⟨(exec_dispatch_keying handlerStateCmd5 WM_COMMAND 5 0 nmZero).2
      handlerSeven 7 rfl rfl,
   (exec_dispatch_keying handlerStateEmpty 42 0 0 nmZero).1 rfl⟩

/-- Claim C6: if the handler found by `base_msg_handler::exec` throws, the
exception is swallowed by `catch_all_excps` and `exec` still returns a
present optional holding the `LRESULT` variable that was initialized to 0. -/
theorem exec_swallows_exceptions (H : BaseMsgHandler) (msg wp : Nat)
    (lp : Int) (nm : NMHDR) (f : Handler)
    (hf : dispatchLookup H msg wp nm = some f)
    (hv : f ⟨wp, lp⟩ = Except.error ()) :
    H.exec msg wp lp nm = some 0 :=
  exec_eq_zero_of_lookup_throw H msg wp lp nm f () hf hv

theorem exec_swallows_exceptions_witness :
    BaseMsgHandler.exec handlerStateMsg2 2 0 0 nmZero = some 0 :=
  exec_swallows_exceptions handlerStateMsg2 2 0 0 nmZero handlerThrow rfl rfl

/-- Claim C2 (refuted, code bug): the four named registration methods store
their callback under a message different from the one they are named after.
`wm_copy_data` registers under `WM_CREATE` instead of `WM_COPYDATA`,
`wm_get_hot_key` under `WM_GETFONT` instead of `WM_GETHOTKEY`,
`wm_input_lang_change` under `WM_HELP` instead of `WM_INPUTLANGCHANGE`, and
`wm_query_drag_icon` under `WM_QUERYNEWPALETTE` instead of
`WM_QUERYDRAGICON`; a callback registered through them is not found under
the message the method is named after. -/
theorem wm_named_methods_register_wrong_message :
    (storeFind (wm_copy_data [] handlerSeven) WM_COPYDATA = none ∧
     storeFind (wm_copy_data [] handlerSeven) WM_CREATE = some handlerSeven ∧
     WM_CREATE ≠ WM_COPYDATA) ∧
    (storeFind (wm_get_hot_key [] handlerSeven) WM_GETHOTKEY = none ∧
     storeFind (wm_get_hot_key [] handlerSeven) WM_GETFONT = some handlerSeven ∧
     WM_GETFONT ≠ WM_GETHOTKEY) ∧
    (storeFind (wm_input_lang_change [] handlerSeven) WM_INPUTLANGCHANGE = none ∧
     storeFind (wm_input_lang_change [] handlerSeven) WM_HELP = some handlerSeven ∧
     WM_HELP ≠ WM_INPUTLANGCHANGE) ∧
    (storeFind (wm_query_drag_icon [] handlerSeven) WM_QUERYDRAGICON = none ∧
     storeFind (wm_query_drag_icon [] handlerSeven) WM_QUERYNEWPALETTE = some handlerSeven ∧
     WM_QUERYNEWPALETTE ≠ WM_QUERYDRAGICON) :=
  ⟨⟨rfl, rfl, by decide⟩, ⟨rfl, rfl, by decide⟩,
   ⟨rfl, rfl, by decide⟩, ⟨rfl, rfl, by decide⟩⟩

/-- Claim C3: `ui_work::work` allocates the function on the heap and sends
`WM_UI_WORK_THREAD` (`WM_APP + 0x3fff`) with wparam `0xc0def00d` and the
pointer as lparam; the default handler that `base_msg_handler` installs for
that message invokes the stored function, deletes the pointer and returns 0,
and invokes nothing when wparam differs from `0xc0def00d` or lparam is
null. -/
theorem ui_work_marshals_callback (heap : Heap) (p func : Nat)
    (hp : p ≠ 0) :
    (ui_work_work heap p func).2.msg = WM_APP + 0x3fff ∧
    (ui_work_work heap p func).2.wparam = 0xc0def00d ∧
    (ui_work_work heap p func).2.lparam = p ∧
    storeFind default_msg_handlers (ui_work_work heap p func).2.msg =
      some wm_ui_work_handler ∧
    (wm_ui_work_handler (ui_work_work heap p func).1 0xc0def00d p).invoked =
      some func ∧
    (wm_ui_work_handler (ui_work_work heap p func).1 0xc0def00d p).heapAfter p =
      none ∧
    (wm_ui_work_handler (ui_work_work heap p func).1 0xc0def00d p).result = 0 ∧
    (∀ (h : Heap) (w l : Nat), w ≠ 0xc0def00d ∨ l = 0 →
      (wm_ui_work_handler h w l).invoked = none ∧
      (wm_ui_work_handler h w l).result = 0) := by
  refine ⟨rfl, rfl, rfl, rfl, ?_, ?_, ?_, ?_⟩
  · simp [wm_ui_work_handler, ui_work_work, heapUpdate, hp]
  · simp [wm_ui_work_handler, ui_work_work, heapUpdate, hp]
  · simp [wm_ui_work_handler, hp]
  · intro h w l hwl
    rcases hwl with hw | hl
    · simp [wm_ui_work_handler, hw]
    · simp [wm_ui_work_handler, hl]

theorem ui_work_marshals_callback_witness :
    (ui_work_work heapEmpty 1 3).2.msg = WM_APP + 0x3fff ∧
    (ui_work_work heapEmpty 1 3).2.wparam = 0xc0def00d ∧
    (ui_work_work heapEmpty 1 3).2.lparam = 1 ∧
    storeFind default_msg_handlers (ui_work_work heapEmpty 1 3).2.msg =
      some wm_ui_work_handler ∧
    (wm_ui_work_handler (ui_work_work heapEmpty 1 3).1 0xc0def00d 1).invoked =
      some 3 ∧
    (wm_ui_work_handler (ui_work_work heapEmpty 1 3).1 0xc0def00d 1).heapAfter 1 =
      none ∧
    (wm_ui_work_handler (ui_work_work heapEmpty 1 3).1 0xc0def00d 1).result = 0 ∧
    (∀ (h : Heap) (w l : Nat), w ≠ 0xc0def00d ∨ l = 0 →
      (wm_ui_work_handler h w l).invoked = none ∧
      (wm_ui_work_handler h w l).result = 0) :=
  ui_work_marshals_callback heapEmpty 1 3 (by decide)

/-- Claim C4: the dialog procedure returns FALSE (0) when no self pointer is
stored for the message (before `WM_INITDIALOG`, after `WM_NCDESTROY`) or
when no user handler exists for the message's dispatch key, and otherwise
returns exactly the value the registered handler produced; processing
`WM_NCDESTROY` clears the stored pointer. -/
theorem dialog_proc_dispatch (stored lpSelf : Option BaseMsgHandler)
    (msg wp : Nat) (lp : Int) (nm : NMHDR) :
    ((if msg = WM_INITDIALOG then lpSelf else stored) = none →
      (dialog_proc stored lpSelf msg wp lp nm).1 = 0) ∧
    (∀ H, (if msg = WM_INITDIALOG then lpSelf else stored) = some H →
      dispatchLookup H msg wp nm = none →
      (dialog_proc stored lpSelf msg wp lp nm).1 = 0) ∧
    (∀ H f v, (if msg = WM_INITDIALOG then lpSelf else stored) = some H →
      dispatchLookup H msg wp nm = some f → f ⟨wp, lp⟩ = Except.ok v →
      (dialog_proc stored lpSelf msg wp lp nm).1 = v) ∧
    (∀ H, (if msg = WM_INITDIALOG then lpSelf else stored) = some H →
      msg = WM_NCDESTROY →
      (dialog_proc stored lpSelf msg wp lp nm).2 = none) := by
  refine ⟨?_, ?_, ?_, ?_⟩
  · intro h
    unfold dialog_proc
    rw [h]
  · intro H h hl
    unfold dialog_proc
    rw [h]
    simp [exec_eq_none_of_lookup_none H msg wp lp nm hl]
  · intro H f v h hf hv
    unfold dialog_proc
    rw [h]
    simp [exec_eq_ok_of_lookup_some H msg wp lp nm f v hf hv]
  · intro H h hmsg
    unfold dialog_proc
    rw [h]
    simp [hmsg]

theorem dialog_proc_dispatch_witness :
    (dialog_proc (some handlerStateCmd5) none WM_COMMAND 5 0 nmZero).1 = 7 ∧
    (dialog_proc none none 42 0 0 nmZero).1 = 0 :=
  ⟨(dialog_proc_dispatch (some handlerStateCmd5) none WM_COMMAND 5 0 nmZero).2.2.1
      handlerStateCmd5 handlerSeven 7 rfl rfl rfl,
   (dialog_proc_dispatch none none 42 0 0 nmZero).1 rfl⟩

/-- Claim C9: `accel_table::add_char` uppercases the character and appends
exactly one `ACCEL` entry with the given modifiers and command ID; once the
table was built, `add_char` and `add_key` throw `std::logic_error` and
leave the stored entries unchanged; `haccel()` on a non-empty, unbuilt
table builds it. -/
theorem accel_table_spec (t : AccelTable) (ch : Char) (m : Nat) (cmd : Int)
    (vK : Nat) :
    (t.hAccel = false →
      t.add_char ch m cmd =
        ({ t with accels := t.accels ++
            [⟨BYTE_cast m, (charUpperW ch).toNat % 2 ^ 16, WORD_cast cmd⟩] },
         none)) ∧
    (t.hAccel = true →
      (t.add_char ch m cmd).1 = t ∧
      (t.add_char ch m cmd).2 =
        some ("Cannot add character after accelerator table was built.") ∧
      (t.add_key vK m cmd).1 = t ∧
      (t.add_key vK m cmd).2 =
        some ("Cannot add virtual key after accelerator table was built.")) ∧
    (t.hAccel = false → t.accels ≠ [] → (t.haccel true).1.1.hAccel = true) := by
  refine ⟨?_, ?_, ?_⟩
  · intro h
    simp [AccelTable.add_char, h]
  · intro h
    simp [AccelTable.add_char, AccelTable.add_key, h]
  · intro h hne
    have hlen : t.accels.length ≠ 0 := by
      simpa [List.length_eq_zero] using hne
    simp [AccelTable.haccel, h, hlen]

theorem accel_table_spec_witness :
    AccelTable.add_char ⟨[], false⟩ 'a' 1 10 =
      (⟨[⟨BYTE_cast 1, (charUpperW 'a').toNat % 2 ^ 16, WORD_cast 10⟩], false⟩,
       none) ∧
    (AccelTable.add_char ⟨[⟨1, 65, 2⟩], true⟩ 'b' 0 0).1 = ⟨[⟨1, 65, 2⟩], true⟩ ∧
    (AccelTable.add_key ⟨[⟨1, 65, 2⟩], true⟩ 9 0 0).1 = ⟨[⟨1, 65, 2⟩], true⟩ ∧
    (AccelTable.haccel ⟨[⟨1, 65, 2⟩], false⟩ true).1.1.hAccel = true :=
  ⟨(accel_table_spec ⟨[], false⟩ 'a' 1 10 9).1 rfl,
   ((accel_table_spec ⟨[⟨1, 65, 2⟩], true⟩ 'b' 0 0 9).2.1 rfl).1,
   ((accel_table_spec ⟨[⟨1, 65, 2⟩], true⟩ 'b' 0 0 9).2.1 rfl).2.2.1,
   (accel_table_spec ⟨[⟨1, 65, 2⟩], false⟩ 'b' 0 0 9).2.2 rfl
     (List.cons_ne_nil _ _)⟩

/-- Claim C10: `base_dialog::on_msg` throws `std::logic_error` once the
dialog has been created (stored `HWND` non-null) and before creation
returns the registration proxy over the message-handler store, so a
successful registration can only happen while the window does not exist. -/
theorem base_dialog_on_msg_guard (d : BaseDialog) :
    (∀ h, d.hWnd = some h → d.on_msg =
      Except.error ("Cannot add a message handler after the dialog was created.")) ∧
    (d.hWnd = none → d.on_msg = Except.ok d.msgHandler) ∧
    (∀ H, d.on_msg = Except.ok H → d.hWnd = none ∧ H = d.msgHandler) := by
  refine ⟨?_, ?_, ?_⟩
  · intro h hh
    simp [BaseDialog.on_msg, hh]
  · intro hh
    simp [BaseDialog.on_msg, hh]
  · intro H hok
    cases hd : d.hWnd with
    | none =>
        simp [BaseDialog.on_msg, hd] at hok
        exact ⟨rfl, hok.symm⟩
    | some h =>
        simp [BaseDialog.on_msg, hd] at hok

theorem base_dialog_on_msg_guard_witness :
    BaseDialog.on_msg ⟨some 1, handlerStateEmpty⟩ =
      Except.error ("Cannot add a message handler after the dialog was created.") ∧
    BaseDialog.on_msg ⟨none, handlerStateEmpty⟩ = Except.ok handlerStateEmpty :=
  ⟨(base_dialog_on_msg_guard ⟨some 1, handlerStateEmpty⟩).1 1 rfl,
   (base_dialog_on_msg_guard ⟨none, handlerStateEmpty⟩).2.1 rfl⟩

theorem find_idx_go_of_no_match {K V : Type} [DecidableEq K] (key : K) :
    ∀ (l : List (MapEntry K V)) (i : Nat), (∀ e ∈ l, e.key ≠ key) →
      find_idx_go l key i = SIZE_MAX := by
  intro l
  induction l with
  | nil => intro i _; rfl
  | cons a rest ih =>
      intro i hno
      have hk : a.key ≠ key := hno a (List.mem_cons_self a rest)
      simp only [find_idx_go, if_neg hk]
      exact ih (i + 1) (fun e he => hno e (List.mem_cons_of_mem a he))

theorem find_idx_go_sentinel {K V : Type} [DecidableEq K] (key : K) :
    ∀ (l : List (MapEntry K V)) (i : Nat), i + l.length ≤ SIZE_MAX →
      find_idx_go l key i = SIZE_MAX → ∀ e ∈ l, e.key ≠ key := by
  intro l
  induction l with
  | nil => intro i _ _ e he; simp at he
  | cons a rest ih =>
      intro i hle hres e he
      by_cases hk : a.key = key
      · simp only [find_idx_go, if_pos hk] at hres
        have : rest.length + 1 = (a :: rest).length := by simp
        exfalso
        simp only [List.length_cons] at hle
        omega
      · simp only [find_idx_go, if_neg hk] at hres
        rcases List.mem_cons.mp he with rfl | hmem
        · exact hk
        · exact ih (i + 1) (by simp only [List.length_cons] at hle; omega) hres e hmem

theorem find_idx_go_found {K V : Type} [DecidableEq K] (key : K) :
    ∀ (l : List (MapEntry K V)) (i : Nat), find_idx_go l key i ≠ SIZE_MAX →
      i ≤ find_idx_go l key i ∧
      ∃ e, l.get? (find_idx_go l key i - i) = some e ∧ e.key = key := by
  intro l
  induction l with
  | nil => intro i h; exact absurd rfl h
  | cons a rest ih =>
      intro i h
      by_cases hk : a.key = key
      · simp only [find_idx_go, if_pos hk] at h ⊢
        exact ⟨Nat.le_refl i, a, by simp, hk⟩
      · simp only [find_idx_go, if_neg hk] at h ⊢
        obtain ⟨hle, e, hget, hkey⟩ := ih (i + 1) h
        refine ⟨by omega, e, ?_, hkey⟩
        have hidx : find_idx_go rest key (i + 1) - i
            = (find_idx_go rest key (i + 1) - (i + 1)) + 1 := by omega
        rw [hidx]
        simpa using hget

/-- Claim C5: `insert_order_map` keeps keys unique and iteration order equal
to insertion order: `emplace` on an absent key appends at the back and
returns (index of the new last entry, true); on a present key it returns
(index of the existing entry, false) leaving the entries unchanged;
`operator[]` on an absent key appends a default-constructed value at the
back and refers to it; `contains` holds exactly when some entry holds the
key; and key-uniqueness is preserved by `emplace`. -/
theorem insert_order_map_spec {K V : Type} [DecidableEq K] [Inhabited V]
    (m : InsertOrderMap K V) (key : K) (val : V)
    (hlen : m.entries.length < SIZE_MAX) :
    (m.contains key = false →
      m.emplace key val = (⟨m.entries ++ [⟨key, val⟩]⟩, m.entries.length, true)) ∧
    (m.contains key = true →
      (m.emplace key val).1 = m ∧ (m.emplace key val).2.2 = false ∧
      ∃ e, m.entries.get? (m.emplace key val).2.1 = some e ∧ e.key = key) ∧
    (m.contains key = true ↔ ∃ e ∈ m.entries, e.key = key) ∧
    (m.contains key = false →
      m.opIndex key = (⟨m.entries ++ [⟨key, default⟩]⟩, m.entries.length)) ∧
    ((m.entries.map (fun e => e.key)).Nodup →
      (((m.emplace key val).1).entries.map (fun e => e.key)).Nodup) := by
  have hcf : m.contains key = false ↔ m.find_idx key = SIZE_MAX := by
    simp [InsertOrderMap.contains]
  have hct : m.contains key = true ↔ m.find_idx key ≠ SIZE_MAX := by
    simp [InsertOrderMap.contains]
  refine ⟨?_, ?_, ?_, ?_, ?_⟩
  · intro h
    have hfi := hcf.mp h
    simp [InsertOrderMap.emplace, hfi]
  · intro h
    have hfi := hct.mp h
    refine ⟨by simp [InsertOrderMap.emplace, hfi], by simp [InsertOrderMap.emplace, hfi], ?_⟩
    obtain ⟨-, e, hget, hkey⟩ := find_idx_go_found key m.entries 0 hfi
    refine ⟨e, ?_, hkey⟩
    simp only [InsertOrderMap.emplace, hfi, if_neg hfi]
    simpa [InsertOrderMap.find_idx] using hget
  · constructor
    · intro h
      have hfi := hct.mp h
      obtain ⟨-, e, hget, hkey⟩ := find_idx_go_found key m.entries 0 hfi
      exact ⟨e, List.get?_mem (by simpa using hget), hkey⟩
    · intro ⟨e, hmem, hkey⟩
      rw [hct]
      intro hfi
      exact find_idx_go_sentinel key m.entries 0 (by omega) hfi e hmem hkey
  · intro h
    have hfi := hcf.mp h
    simp [InsertOrderMap.opIndex, InsertOrderMap.emplace_key, hfi]
  · intro hnd
    by_cases hfi : m.find_idx key = SIZE_MAX
    · have hno := find_idx_go_sentinel key m.entries 0 (by omega) hfi
      have hemp : (m.emplace key val).1.entries = m.entries ++ [⟨key, val⟩] := by
        simp [InsertOrderMap.emplace, hfi]
      rw [hemp, List.map_append, List.nodup_append]
      refine ⟨hnd, by simp, ?_⟩
      intro k hk hk2
      simp only [List.map_cons, List.map_nil, List.mem_singleton] at hk2
      obtain ⟨e, hmem, hekey⟩ := List.mem_map.mp hk
      exact hno e hmem (by rw [hekey, hk2])
    · simpa [InsertOrderMap.emplace, hfi] using hnd

theorem insert_order_map_spec_witness :
    InsertOrderMap.contains (⟨[⟨1, 10⟩]⟩ : InsertOrderMap Nat Nat) 2 = false ∧
    InsertOrderMap.emplace (⟨[⟨1, 10⟩]⟩ : InsertOrderMap Nat Nat) 2 20 =
      (⟨[⟨1, 10⟩, ⟨2, 20⟩]⟩, 1, true) :=
  ⟨rfl,
   (insert_order_map_spec (⟨[⟨1, 10⟩]⟩ : InsertOrderMap Nat Nat) 2 20
      (by decide)).1 rfl⟩

theorem idx_of_sub_facts : ∀ (s d : List Char) (i : Nat),
    idx_of_sub s d = some i → (s.drop i).take d.length = d ∧ i ≤ s.length := by
  intro s
  induction s with
  | nil =>
      intro d i h
      by_cases hd : ([] : List Char).take d.length = d
      · simp only [idx_of_sub, if_pos hd] at h
        obtain rfl : (0 : Nat) = i := Option.some.inj h
        exact ⟨hd, Nat.le_refl 0⟩
      · simp only [idx_of_sub, if_neg hd] at h
        exact Option.noConfusion h
  | cons c rest ih =>
      intro d i h
      by_cases hd : (c :: rest).take d.length = d
      · simp only [idx_of_sub, if_pos hd] at h
        obtain rfl : (0 : Nat) = i := Option.some.inj h
        exact ⟨hd, Nat.zero_le _⟩
      · simp only [idx_of_sub, if_neg hd] at h
        obtain ⟨j, hj, rfl⟩ := Option.map_eq_some'.mp h
        obtain ⟨h1, h2⟩ := ih d j hj
        refine ⟨by simpa using h1, by simp; omega⟩

theorem idx_of_sub_bound (s d : List Char) (i : Nat)
    (h : idx_of_sub s d = some i) : i + d.length ≤ s.length := by
  obtain ⟨h1, h2⟩ := idx_of_sub_facts s d i h
  have h3 := congrArg List.length h1
  simp only [List.length_take, List.length_drop] at h3
  omega

theorem split_go_fuel_ne_nil (d : List Char) :
    ∀ fuel s, split_go_fuel d fuel s ≠ [] := by
  intro fuel s
  cases fuel with
  | zero => simp [split_go_fuel]
  | succ n =>
      rcases h : idx_of_sub s d with _ | i <;> simp [split_go_fuel, h]

theorem intercalate_pair (d a : List Char) (l : List (List Char)) :
    (l = [] → List.intercalate d (a :: l) = a) ∧
    (l ≠ [] → List.intercalate d (a :: l) = a ++ d ++ List.intercalate d l) := by
  constructor
  · intro h; subst h; simp [List.intercalate]
  · intro h
    cases l with
    | nil => exact absurd rfl h
    | cons b t =>
        simp [List.intercalate, List.intersperse]

theorem split_go_fuel_intercalate (d : List Char) (hd : d ≠ []) :
    ∀ fuel s, s.length ≤ fuel →
      List.intercalate d (split_go_fuel d fuel s) = s := by
  intro fuel
  induction fuel with
  | zero =>
      intro s hs
      have hnil : s = [] := List.length_eq_zero.mp (Nat.le_zero.mp hs)
      subst hnil
      exact (intercalate_pair d [] []).1 rfl
  | succ n ih =>
      intro s hs
      cases hivs : idx_of_sub s d with
      | none =>
          rw [show split_go_fuel d (n + 1) s = [s] from by simp [split_go_fuel, hivs]]
          exact (intercalate_pair d s []).1 rfl
      | some i =>
          have hocc := idx_of_sub_facts s d i hivs
          have hbound := idx_of_sub_bound s d i hivs
          have hdlen : 1 ≤ d.length := by
            cases d with
            | nil => exact absurd rfl hd
            | cons x xs => simp
          have hlen2 : (s.drop (i + d.length)).length ≤ n := by
            simp only [List.length_drop]; omega
          rw [show split_go_fuel d (n + 1) s
              = s.take i :: split_go_fuel d n (s.drop (i + d.length)) from by
            simp [split_go_fuel, hivs]]
          rw [(intercalate_pair d (s.take i) _).2 (split_go_fuel_ne_nil d n _)]
          rw [ih _ hlen2]
          have hdec : s.drop i = d ++ s.drop (i + d.length) := by
            have h3 := List.take_append_drop d.length (s.drop i)
            rw [hocc.1, List.drop_drop] at h3
            simpa [Nat.add_comm] using h3.symm
          calc s.take i ++ d ++ s.drop (i + d.length)
              = s.take i ++ (d ++ s.drop (i + d.length)) := by
                rw [List.append_assoc]
            _ = s.take i ++ s.drop i := by rw [hdec]
            _ = s := List.take_append_drop i s

theorem split_go_fuel_length (d : List Char) (hd : d ≠ []) :
    ∀ fuel s, s.length ≤ fuel →
      (split_go_fuel d fuel s).length = count_occ_fuel d fuel s + 1 := by
  intro fuel
  induction fuel with
  | zero => intro s hs; simp [split_go_fuel, count_occ_fuel]
  | succ n ih =>
      intro s hs
      cases hivs : idx_of_sub s d with
      | none => simp [split_go_fuel, count_occ_fuel, hivs]
      | some i =>
          have hbound := idx_of_sub_bound s d i hivs
          have hdlen : 1 ≤ d.length := by
            cases d with
            | nil => exact absurd rfl hd
            | cons x xs => simp
          have hlen2 : (s.drop (i + d.length)).length ≤ n := by
            simp only [List.length_drop]; omega
          simp [split_go_fuel, count_occ_fuel, hivs, ih _ hlen2]
          omega

/-- Claim C7: for non-empty `s` and non-empty delimiter `d`, `str::split`
returns the pieces of `s` between successive non-overlapping occurrences of
`d` with the delimiters removed: interleaving the pieces with `d`
reconstructs `s`, and the number of pieces is the number of occurrences
plus one; exceptionally an empty `s` yields no pieces and an empty
delimiter yields the single piece `s`. -/
theorem str_split_spec (s d : List Char) :
    (s ≠ [] → d ≠ [] →
      List.intercalate d (split s d) = s ∧
      (split s d).length = count_occurrences s d + 1) ∧
    split [] d = [] ∧
    (s ≠ [] → split s [] = [s]) := by
  refine ⟨?_, ?_, ?_⟩
  · intro hs hd
    have h1 : split s d = split_go_fuel d s.length s := by
      simp [split, hs, hd]
    rw [h1, count_occurrences]
    exact ⟨split_go_fuel_intercalate d hd s.length s (Nat.le_refl _),
           split_go_fuel_length d hd s.length s (Nat.le_refl _)⟩
  · simp [split]
  · intro hs; simp [split, hs]

theorem str_split_spec_witness :
    List.intercalate [','] (split ['a', ',', 'b'] [',']) = ['a', ',', 'b'] ∧
    (split ['a', ',', 'b'] [',']).length
      = count_occurrences ['a', ',', 'b'] [','] + 1 :=
  (str_split_spec ['a', ',', 'b'] [',']).1
    (List.cons_ne_nil _ _) (List.cons_ne_nil _ _)

/-- Claim C8 (refuted, code bug): `str::guess_linebreak` does not stay in
bounds on the empty string: the loop bound `s.length() - 1` is computed in
`size_t` arithmetic and wraps to `SIZE_MAX`, so the first iteration reads
`s[0]` out of bounds (the `none` outcome of the model) instead of returning
nullptr without reading; moreover a linebreak occupying only the final
position is never examined: on the string "\n" the function returns
nullptr (`some none`) although the string contains a linebreak. -/
theorem guess_linebreak_violations :
    guess_linebreak [] = none ∧
    guess_linebreak ['\n'] = some none ∧
    '\n' ∈ ['\n'] := by
  refine ⟨?_, ?_, by simp⟩
  · rfl
  · rfl
